import Mathlib

/-!
Shallow embedding of the hybrid retrieval core of a RAG knowledge-base system.

The embedding follows the Python source:
- `src/core/retriever.py` — `RetrievalResult`, `VectorRetriever`, `GraphRetriever`,
  `FulltextRetriever`, `HybridRetriever` (`retrieve`, `_deduplicate_results`,
  `_rerank_results`, `_cosine_similarity`);
- `src/core/graph_store.py` — Neo4j MERGE semantics for `add_entity` / `add_relation`
  and `GraphStore.build_graph_from_chunks`;
- `src/core/embeddings.py` — `OpenAIEmbeddingProvider.embed_text` fallback and
  `MockEmbeddingProvider.embed_text`.

Floating-point scores and vectors are modelled by real numbers; Python strings by
`String` (code points, matching Python `len`/slicing); Python dicts by association
lists with insert-or-overwrite update; exceptions by `Except`/`Option` values; the
NumPy global random state by an explicit seed/offset state threaded through calls.
-/

namespace RAGCore

/-! ## String helpers mirroring Python primitives -/

/-- Checks that the first list of characters occurs at the head of the second. -/
def leadsWith : List Char → List Char → Bool
  | [], _ => true
  | _ :: _, [] => false
  | a :: as, b :: bs => a == b && leadsWith as bs

/-- Checks that the first list occurs contiguously anywhere in the second. -/
def containsSub : List Char → List Char → Bool
  | n, [] => n.isEmpty
  | n, c :: hs2 => leadsWith n (c :: hs2) || containsSub n hs2

/-- Model of the Python substring test `needle in hay`. -/
def pyContains (hay needle : String) : Bool :=
  containsSub needle.data hay.data

/-- Accumulator-based whitespace splitter (segments collected in reverse). -/
def splitWsAux (cur : List Char) : List Char → List String
  | [] => if cur.isEmpty then [] else [String.mk cur.reverse]
  | c :: cs =>
    if c.isWhitespace then
      if cur.isEmpty then splitWsAux [] cs
      else String.mk cur.reverse :: splitWsAux [] cs
    else splitWsAux (c :: cur) cs

/-- Model of Python `str.split()`: split on whitespace runs, dropping empty parts. -/
def pySplit (s : String) : List String :=
  splitWsAux [] s.data

/-- Model of Python slicing `s[:n]` (by code points). -/
def pyTake (s : String) (n : Nat) : String :=
  String.mk (s.data.take n)

/-- Model of Python `str.lower()` (character-wise, ASCII range). -/
def pyLower (s : String) : String :=
  String.mk (s.data.map Char.toLower)

/-- Model of Python `str.upper()` (character-wise, ASCII range). -/
def pyUpper (s : String) : String :=
  String.mk (s.data.map Char.toUpper)

/-! ## Data model of `retriever.py` -/

/-- Values stored in a retrieval result metadata dict. -/
inductive MVal where
  | str (s : String)
  | num (x : ℝ)
  | factors (sourceWeight lengthBonus keywordBonus semanticBonus : ℝ)

/-- Open key/value metadata map of a retrieval result (Python dict). -/
abbrev Metadata := List (String × MVal)

/-- Dict lookup `m.get(k)`. -/
def dictGet (m : Metadata) (k : String) : Option MVal :=
  (m.find? (fun p => p.1 == k)).map (fun p => p.2)

/-- Dict assignment `m[k] = v`: overwrite in place if present, else append. -/
def dictSet : Metadata → String → MVal → Metadata
  | [], k, v => [(k, v)]
  | (k2, v2) :: m, k, v =>
    if k2 == k then (k, v) :: m else (k2, v2) :: dictSet m k v

/-- The `RetrievalResult` dataclass of `retriever.py`. -/
structure RetrievalResult where
  content : String
  score : ℝ
  source : String
  metadata : Metadata
  documentId : Option String := none
  chunkId : Option String := none

/-! ## `HybridRetriever._deduplicate_results` -/

/-- Loop of `_deduplicate_results`: keep a result only when its content (here the
content itself, standing for its hash) has not been seen before. -/
def dedupLoop (seen : List String) : List RetrievalResult → List RetrievalResult
  | [] => []
  | r :: rs =>
    if r.content ∈ seen then dedupLoop seen rs
    else r :: dedupLoop (r.content :: seen) rs

/-- Model of `HybridRetriever._deduplicate_results`. -/
def deduplicateResults (results : List RetrievalResult) : List RetrievalResult :=
  dedupLoop [] results

/-- Sample result used to instantiate witness statements. -/
noncomputable def sampleResult : RetrievalResult :=
  { content := "alpha", score := 1, source := "vector", metadata := [] }

/-! ## `VectorRetriever.retrieve` -/

/-- One hit returned by `VectorStore.search_vectors`. -/
structure VectorHit where
  id : Option String
  score : ℝ
  metadata : Metadata

/-- Dict lookup `m.get(k, d)` specialised to string values. -/
def getStrD (m : Metadata) (k : String) (d : String) : String :=
  match dictGet m k with
  | some (MVal.str s) => s
  | _ => d

/-- Dict lookup `m.get(k)` specialised to string values. -/
def getStrOpt (m : Metadata) (k : String) : Option String :=
  match dictGet m k with
  | some (MVal.str s) => some s
  | _ => none

/-- Model of `VectorRetriever.retrieve`: the backing-store call is represented by
its outcome; any raised error is caught and turned into an empty list. -/
def vectorRetrieve (searchOutcome : Except String (List VectorHit)) :
    List RetrievalResult :=
  match searchOutcome with
  | .error _ => []
  | .ok hits => hits.map (fun h =>
      { content := getStrD h.metadata "content" ""
        score := h.score
        source := "vector"
        metadata := h.metadata
        documentId := getStrOpt h.metadata "document_id"
        chunkId :=
          match dictGet h.metadata "chunk_id" with
          | some (MVal.str s) => some s
          | _ => h.id })

/-! ## `GraphRetriever.retrieve` -/

/-- One entry of the keyword table in `GraphRetriever._extract_entities`. -/
structure EntityInfo where
  id : String
  name : String
  type : String

/-- The fixed keyword table of `_extract_entities` (insertion order preserved). -/
def entityKeywordTable : List (String × EntityInfo) :=
  [("rag", ⟨"rag_tech", "RAG技术", "Concept"⟩),
   ("向量检索", ⟨"vector_search", "向量检索", "Concept"⟩),
   ("知识图谱", ⟨"knowledge_graph", "知识图谱", "Concept"⟩),
   ("人工智能", ⟨"ai_system", "人工智能", "System"⟩),
   ("机器学习", ⟨"machine_learning", "机器学习", "Concept"⟩),
   ("深度学习", ⟨"deep_learning", "深度学习", "Concept"⟩)]

/-- Model of `GraphRetriever._extract_entities`. -/
def extractEntities (query : String) : List EntityInfo :=
  let ql := pyLower query
  let matched := (entityKeywordTable.filter (fun p => pyContains ql (pyLower p.1))).map
    (fun p => p.2)
  if matched.isEmpty then
    [⟨"general_ai", "人工智能", "Concept"⟩, ⟨"general_tech", "技术", "Concept"⟩]
  else matched

/-- One entry returned by `GraphStore.find_related_entities` (weight already
defaulted to 0.5 when absent, as that method does). -/
structure RelatedEntity where
  entityId : String
  relationType : String
  weight : ℝ

/-- Entity metadata value stored by the graph retriever. -/
def entityMVal (e : EntityInfo) : MVal :=
  MVal.str (e.id ++ "|" ++ e.name ++ "|" ++ e.type)

/-- Model of `GraphRetriever.retrieve`: the per-entity `find_related_entities`
call is represented by its outcome; `find_related_entities` catches backing-store
errors and contributes an empty list for that entity. -/
def graphRetrieve (related : String → Except String (List RelatedEntity))
    (query : String) (topK : Nat) : List RetrievalResult :=
  let entities := extractEntities query
  let results := entities.foldl (fun acc e =>
    match related e.id with
    | .error _ => acc
    | .ok rels => acc ++ (rels.take topK).map (fun rel =>
        { content := "实体" ++ e.name ++ "与" ++ rel.entityId ++ "存在" ++
            rel.relationType ++ "关系"
          score := rel.weight
          source := "graph"
          metadata := [("entity", entityMVal e),
            ("related_entity", MVal.str rel.entityId),
            ("relation_type", MVal.str rel.relationType)] })) []
  results.take topK

/-! ## `FulltextRetriever.retrieve` -/

/-- Model of `FulltextRetriever.retrieve`: a synthetic result per query token with
linearly decreasing score; `exc` models an exception raised by the body, which the
handler turns into an empty list. -/
noncomputable def fulltextRetrieve (exc : Option String) (query : String)
    (topK : Nat) : List RetrievalResult :=
  match exc with
  | some _ => []
  | none =>
    ((pySplit query).take topK).enum.map (fun p =>
      { content := "包含关键词\x27" ++ p.2 ++ "\x27的文档内容..."
        score := 0.8 - p.1 * 0.1
        source := "fulltext"
        metadata := [("keyword", MVal.str p.2),
          ("document_title", MVal.str ("文档" ++ toString (p.1 + 1))),
          ("highlight", MVal.str ("..." ++ p.2 ++ "..."))] })

/-! ## `HybridRetriever._cosine_similarity` -/

/-- Dot product of two vectors over their common length (`np.dot`). -/
noncomputable def dotP (v w : List ℝ) : ℝ :=
  ((v.zip w).map (fun p => p.1 * p.2)).sum

/-- Euclidean norm (`np.linalg.norm`). -/
noncomputable def listNorm (v : List ℝ) : ℝ :=
  Real.sqrt (dotP v v)

/-- Model of `HybridRetriever._cosine_similarity`: a shape mismatch makes `np.dot`
raise, which the bare handler turns into 0.0; a zero norm yields 0.0; otherwise
the quotient is clamped into [-1, 1]. -/
noncomputable def cosineSimilarity (v w : List ℝ) : ℝ :=
  if v.length ≠ w.length then 0.0
  else if listNorm v = 0 ∨ listNorm w = 0 then 0.0
  else max (-1.0) (min 1.0 (dotP v w / (listNorm v * listNorm w)))

/-! ## `HybridRetriever._rerank_results` -/

/-- Per-result body of the rerank loop: computes the four factors, the final
score, and records them in the metadata. -/
noncomputable def rescoreResult (embedText : String → Except Unit (List ℝ))
    (queryEmbedding : List ℝ) (query : String) (r : RetrievalResult) :
    RetrievalResult :=
  let originalScore := r.score
  let sourceWeight : ℝ :=
    if r.source = "vector" then 1.0
    else if r.source = "graph" then 0.9
    else if r.source = "fulltext" then 0.8
    else 1.0
  let contentLength := r.content.length
  let lengthBonus : ℝ :=
    if 50 ≤ contentLength ∧ contentLength ≤ 500 then 1.1
    else if 500 < contentLength then 1.05
    else 0.9
  let queryWords := pySplit (pyLower query)
  let contentWords := pySplit (pyLower r.content)
  let keywordOverlap := (queryWords.dedup.filter (fun w => contentWords.contains w)).length
  let keywordBonus : ℝ := 1.0 + keywordOverlap * 0.1
  let semanticBonus : ℝ :=
    if 20 < contentLength then
      match embedText (pyTake r.content 500) with
      | .ok ce => 1.0 + cosineSimilarity queryEmbedding ce * 0.5
      | .error _ => 1.0
    else 1.0
  let finalScore := originalScore * sourceWeight * lengthBonus * keywordBonus *
    semanticBonus
  { r with
    score := finalScore
    metadata :=
      dictSet (dictSet r.metadata "original_score" (MVal.num originalScore))
        "rerank_factors"
        (MVal.factors sourceWeight lengthBonus keywordBonus semanticBonus) }

/-- Stable insertion into a descending-sorted list: an element from earlier in the
input goes before every later element of not-greater score. -/
noncomputable def insertDesc (x : RetrievalResult) :
    List RetrievalResult → List RetrievalResult
  | [] => [x]
  | y :: ys => if y.score ≤ x.score then x :: y :: ys else y :: insertDesc x ys

/-- Model of `sorted(results, key=lambda x: x.score, reverse=True)`: Python
`sorted` is a stable sort, characterised here by stable insertion sort. -/
noncomputable def sortByScoreDesc : List RetrievalResult → List RetrievalResult
  | [] => []
  | x :: xs => insertDesc x (sortByScoreDesc xs)

/-- Model of `HybridRetriever._rerank_results`: if embedding the query raises, the
outer handler returns the input unchanged; otherwise every result is rescored and
the list is stably sorted by descending final score. -/
noncomputable def rerankResults (embedText : String → Except Unit (List ℝ))
    (query : String) (results : List RetrievalResult) : List RetrievalResult :=
  match embedText query with
  | .error _ => results
  | .ok qe => sortByScoreDesc (results.map (rescoreResult embedText qe query))

/-! ## `HybridRetriever.retrieve` -/

/-- Mode dispatch of `HybridRetriever.retrieve`: single-strategy modes run one
retriever with the full budget, hybrid runs all three with budget
`top_k // 3 + 2` each, and any other mode raises a `ValueError`. -/
noncomputable def modeResults (vres : Except String (List VectorHit))
    (related : String → Except String (List RelatedEntity)) (ftExc : Option String)
    (query mode : String) (topK : Nat) : Except String (List RetrievalResult) :=
  if mode = "vector" then .ok (vectorRetrieve vres)
  else if mode = "graph" then .ok (graphRetrieve related query topK)
  else if mode = "fulltext" then .ok (fulltextRetrieve ftExc query topK)
  else if mode = "hybrid" then
    .ok (vectorRetrieve vres ++ graphRetrieve related query (topK / 3 + 2) ++
      fulltextRetrieve ftExc query (topK / 3 + 2))
  else .error ("不支持的检索模式: " ++ mode)

/-- Fusion stage of `HybridRetriever.retrieve`: deduplicate, rerank only when
requested and more than one unique result remains, then truncate to `top_k`. -/
noncomputable def postProcess (embedText : String → Except Unit (List ℝ))
    (query : String) (topK : Nat) (rerank : Bool)
    (allResults : List RetrievalResult) : List RetrievalResult :=
  let uniqueResults := deduplicateResults allResults
  let reranked :=
    if rerank = true ∧ 1 < uniqueResults.length then
      rerankResults embedText query uniqueResults
    else uniqueResults
  reranked.take topK

/-- Body of `HybridRetriever.retrieve` before its outer exception handler. -/
noncomputable def retrieveBody (embedText : String → Except Unit (List ℝ))
    (vres : Except String (List VectorHit))
    (related : String → Except String (List RelatedEntity)) (ftExc : Option String)
    (query mode : String) (topK : Nat) (rerank : Bool) :
    Except String (List RetrievalResult) :=
  match modeResults vres related ftExc query mode topK with
  | .error e => .error e
  | .ok all => .ok (postProcess embedText query topK rerank all)

/-- Model of `HybridRetriever.retrieve` as seen by callers: the outer
`except Exception` turns any raised error into an empty list. -/
noncomputable def retrieve (embedText : String → Except Unit (List ℝ))
    (vres : Except String (List VectorHit))
    (related : String → Except String (List RelatedEntity)) (ftExc : Option String)
    (query mode : String) (topK : Nat) (rerank : Bool) : List RetrievalResult :=
  match retrieveBody embedText vres related ftExc query mode topK rerank with
  | .ok l => l
  | .error _ => []

/-! ## Graph store (`graph_store.py`) -/

/-- Property values stored on graph nodes and edges. -/
inductive PVal where
  | str (s : String)
  | nat (n : Nat)
  | rat (q : ℚ)
  deriving DecidableEq

/-- Property map of a node or edge. -/
abbrev Props := List (String × PVal)

/-- Single-key property update (in-place overwrite, else append). -/
def propSet : Props → String → PVal → Props
  | [], k, v => [(k, v)]
  | (k2, v2) :: m, k, v =>
    if k2 == k then (k, v) :: m else (k2, v2) :: propSet m k v

/-- Cypher `SET x += $properties`: update every key of `upd` into `m`. -/
def propsUpdate (m upd : Props) : Props :=
  upd.foldl (fun acc kv => propSet acc kv.1 kv.2) m

/-- One node of the property graph. -/
structure GNode where
  label : String
  id : String
  props : Props
  deriving DecidableEq

/-- One directed typed edge of the property graph. -/
structure GEdge where
  fromId : String
  toId : String
  type : String
  props : Props
  deriving DecidableEq

/-- The state of the external graph database. -/
structure GraphState where
  nodes : List GNode
  edges : List GEdge
  deriving DecidableEq

/-- Fresh graph database. -/
def emptyGraph : GraphState := ⟨[], []⟩

/-- Entity dict passed to `add_entity`. -/
structure GEntity where
  id : String
  type : String
  properties : Props

/-- Relation dict passed to `add_relation`. -/
structure GRelationInput where
  fromEntity : String
  toEntity : String
  type : String
  properties : Props

/-- Model of `Neo4jGraphStore.add_entity`:
`MERGE (e:Type {id: $id}) SET e += $properties` with the id included in the
written properties — create the node if no node with this label and id exists,
else update its properties in place. -/
def addEntity (g : GraphState) (e : GEntity) : GraphState :=
  let sp := propsUpdate [("id", PVal.str e.id)] e.properties
  if g.nodes.any (fun n => n.label == e.type && n.id == e.id) then
    { g with nodes := g.nodes.map (fun n =>
        if n.label == e.type && n.id == e.id then
          { n with props := propsUpdate n.props sp }
        else n) }
  else { g with nodes := g.nodes ++ [⟨e.type, e.id, sp⟩] }

/-- Model of `Neo4jGraphStore.add_relation` after its argument check:
`MATCH (a {id}) MATCH (b {id}) MERGE (a)-[r:TYPE]->(b) SET r += $properties` —
if either endpoint id is absent the query matches nothing and the graph is
unchanged; else the edge is created if absent and updated in place otherwise.
The relation type is uppercased as in the source. -/
def addRelation (g : GraphState) (r : GRelationInput) : GraphState :=
  let t := pyUpper r.type
  if g.nodes.any (fun n => n.id == r.fromEntity) &&
      g.nodes.any (fun n => n.id == r.toEntity) then
    if g.edges.any (fun ed =>
        ed.fromId == r.fromEntity && ed.toId == r.toEntity && ed.type == t) then
      { g with edges := g.edges.map (fun ed =>
          if ed.fromId == r.fromEntity && ed.toId == r.toEntity && ed.type == t then
            { ed with props := propsUpdate ed.props r.properties }
          else ed) }
    else { g with edges := g.edges ++ [⟨r.fromEntity, r.toEntity, t, r.properties⟩] }
  else g

/-! ## `GraphStore.build_graph_from_chunks` -/

/-- A `DocumentChunk` as consumed by the graph builder. -/
structure Chunk where
  documentId : String
  chunkIndex : Nat
  content : String
  metadata : List (String × String)

/-- Lookup `chunk.metadata.get(k, d)`. -/
def chunkMetaGet (c : Chunk) (k d : String) : String :=
  match c.metadata.find? (fun p => p.1 == k) with
  | some p => p.2
  | none => d

/-- The document entity built per chunk. -/
def docEntity (c : Chunk) : GEntity :=
  { id := "doc_" ++ c.documentId
    type := "Document"
    properties := [("document_id", PVal.str c.documentId),
      ("title", PVal.str (chunkMetaGet c "title" ("文档" ++ pyTake c.documentId 8))),
      ("created_at", PVal.str (chunkMetaGet c "created_at" ""))] }

/-- Identifier of the chunk entity. -/
def chunkEntityId (c : Chunk) : String :=
  "chunk_" ++ c.documentId ++ "_" ++ toString c.chunkIndex

/-- The chunk entity built per chunk. -/
def chunkEntity (c : Chunk) : GEntity :=
  { id := chunkEntityId c
    type := "DocumentChunk"
    properties := [("document_id", PVal.str c.documentId),
      ("chunk_index", PVal.nat c.chunkIndex),
      ("content_preview", PVal.str
        (if 100 < c.content.length then pyTake c.content 100 ++ "..." else c.content)),
      ("content_length", PVal.nat c.content.length)] }

/-- The document-contains-chunk relation built per chunk. -/
def docChunkRelation (c : Chunk) : GRelationInput :=
  { fromEntity := "doc_" ++ c.documentId
    toEntity := chunkEntityId c
    type := "CONTAINS_CHUNK"
    properties := [("chunk_order", PVal.nat c.chunkIndex), ("weight", PVal.rat 1)] }

/-- The keyword-based topic detection applied to the lower-cased chunk content. -/
def detectTopics (c : Chunk) : List String :=
  let cl := pyLower c.content
  (if pyContains cl "rag" || pyContains cl "检索" then ["RAG技术"] else []) ++
  (if pyContains cl "知识图谱" || pyContains cl "图谱" then ["知识图谱"] else []) ++
  (if pyContains cl "向量" || pyContains cl "嵌入" then ["向量检索"] else []) ++
  (if pyContains cl "ai" || pyContains cl "人工智能" then ["人工智能"] else [])

/-- Identifier of a topic entity (`topic.replace(' ', '_')`). -/
def topicId (topic : String) : String :=
  "topic_" ++ String.mk (topic.data.map (fun ch => if ch == ' ' then '_' else ch))

/-- The topic entity built per matched topic. -/
def topicEntity (topic : String) : GEntity :=
  { id := topicId topic
    type := "Topic"
    properties := [("name", PVal.str topic), ("category", PVal.str "技术概念")] }

/-- The chunk-relates-to-topic relation built per matched topic. -/
def topicRelation (c : Chunk) (topic : String) : GRelationInput :=
  { fromEntity := chunkEntityId c
    toEntity := topicId topic
    type := "RELATES_TO"
    properties := [("confidence", PVal.rat (4/5)), ("weight", PVal.rat (3/5))] }

/-- Running state of one `build_graph_from_chunks` call: the external graph, the
index of the next store operation (consulted by the failure oracle), and the two
counters accumulated by the loop. -/
structure BuildSt where
  g : GraphState
  opIdx : Nat
  entities : Nat
  relations : Nat
  deriving DecidableEq

/-- One `add_entity` call: the oracle decides whether the backing store raises at
this operation; on failure the store is not modified. -/
def addEntitySt (oracle : Nat → Option String) (st : BuildSt) (e : GEntity) :
    BuildSt × Option String :=
  match oracle st.opIdx with
  | some msg => ({ st with opIdx := st.opIdx + 1 }, some msg)
  | none => ({ st with g := addEntity st.g e, opIdx := st.opIdx + 1 }, none)

/-- One `add_relation` call: empty endpoint ids raise a `ValueError`; otherwise
the oracle decides whether the backing store raises. -/
def addRelationSt (oracle : Nat → Option String) (st : BuildSt)
    (r : GRelationInput) : BuildSt × Option String :=
  if r.fromEntity = "" ∨ r.toEntity = "" then
    ({ st with opIdx := st.opIdx + 1 }, some "from_entity和to_entity都必须提供")
  else
    match oracle st.opIdx with
    | some msg => ({ st with opIdx := st.opIdx + 1 }, some msg)
    | none => ({ st with g := addRelation st.g r, opIdx := st.opIdx + 1 }, none)

/-- The per-topic loop of `build_graph_from_chunks`. -/
def addTopics (oracle : Nat → Option String) (c : Chunk) :
    List String → BuildSt → BuildSt × Option String
  | [], st => (st, none)
  | t :: ts, st =>
    match addEntitySt oracle st (topicEntity t) with
    | (st1, some e) => (st1, some e)
    | (st1, none) =>
      match addRelationSt oracle st1 (topicRelation c t) with
      | (st2, some e) => (st2, some e)
      | (st2, none) =>
        addTopics oracle c ts
          { st2 with entities := st2.entities + 1, relations := st2.relations + 1 }

/-- The per-chunk body of `build_graph_from_chunks`. -/
def processChunk (oracle : Nat → Option String) (st : BuildSt) (c : Chunk) :
    BuildSt × Option String :=
  match addEntitySt oracle st (docEntity c) with
  | (st1, some e) => (st1, some e)
  | (st1, none) =>
    match addEntitySt oracle st1 (chunkEntity c) with
    | (st2, some e) => (st2, some e)
    | (st2, none) =>
      match addRelationSt oracle { st2 with entities := st2.entities + 2 }
          (docChunkRelation c) with
      | (st3, some e) => (st3, some e)
      | (st3, none) =>
        addTopics oracle c (detectTopics c)
          { st3 with relations := st3.relations + 1 }

/-- The chunk loop of `build_graph_from_chunks`, stopping at the first raised
error as the Python `for` inside `try` does. -/
def runChunks (oracle : Nat → Option String) :
    List Chunk → BuildSt → BuildSt × Option String
  | [], st => (st, none)
  | c :: cs, st =>
    match processChunk oracle st c with
    | (st1, some e) => (st1, some e)
    | (st1, none) => runChunks oracle cs st1

/-- The result dict returned by `build_graph_from_chunks`. -/
structure BuildResult where
  success : Bool
  chunksProcessed : Nat
  graphEntities : Nat
  graphRelations : Nat
  error : Option String
  deriving DecidableEq

/-- Model of `GraphStore.build_graph_from_chunks`: runs the chunk loop; on any
raised error the handler returns a failure result with zero counts instead of
re-raising. The second component is the state of the external graph store after
the call. -/
def buildGraphFromChunks (oracle : Nat → Option String) (g0 : GraphState)
    (chunks : List Chunk) : BuildResult × GraphState :=
  match runChunks oracle chunks ⟨g0, 0, 0, 0⟩ with
  | (st, none) =>
    ({ success := true, chunksProcessed := chunks.length,
       graphEntities := st.entities, graphRelations := st.relations,
       error := none }, st.g)
  | (st, some e) =>
    ({ success := false, chunksProcessed := chunks.length,
       graphEntities := 0, graphRelations := 0, error := some e }, st.g)

/-- Oracle of a healthy backing store: no operation raises. -/
def healthyOracle : Nat → Option String := fun _ => none

/-! ## Proof-support views of the graph state -/

/-- Merge keys of the nodes (label paired with id, the MERGE key of
`add_entity`). -/
def nodeKeys (g : GraphState) : List (String × String) :=
  g.nodes.map (fun n => (n.label, n.id))

/-- Ids of the nodes (the MATCH key of `add_relation`). -/
def nodeIds (g : GraphState) : List String :=
  g.nodes.map (fun n => n.id)

/-- Merge keys of the edges. -/
def edgeKeys (g : GraphState) : List (String × String × String) :=
  g.edges.map (fun e => (e.fromId, e.toId, e.type))

/-- Pure graph effect of the topic loop under a healthy store. -/
def applyTopics (c : Chunk) (ts : List String) (g : GraphState) : GraphState :=
  ts.foldl
    (fun gg t => addRelation (addEntity gg (topicEntity t)) (topicRelation c t)) g

/-- Pure graph effect of one chunk under a healthy store. -/
def applyChunk (g : GraphState) (c : Chunk) : GraphState :=
  applyTopics c (detectTopics c)
    (addRelation (addEntity (addEntity g (docEntity c)) (chunkEntity c))
      (docChunkRelation c))

/-- Pure graph effect of a chunk list under a healthy store. -/
def applyChunks (chunks : List Chunk) (g : GraphState) : GraphState :=
  chunks.foldl applyChunk g

/-- Node merge keys written while processing one chunk. -/
def chunkNodeKeys (c : Chunk) : List (String × String) :=
  ("Document", "doc_" ++ c.documentId) :: ("DocumentChunk", chunkEntityId c) ::
    (detectTopics c).map (fun t => ("Topic", topicId t))

/-- Edge merge keys written while processing one chunk. -/
def chunkEdgeKeys (c : Chunk) : List (String × String × String) :=
  ("doc_" ++ c.documentId, chunkEntityId c, "CONTAINS_CHUNK") ::
    (detectTopics c).map (fun t => (chunkEntityId c, topicId t, "RELATES_TO"))

/-- Entities counter accumulated by a healthy `build_graph_from_chunks` run:
2 per chunk (the document entity is counted once per chunk) plus one per
chunk-topic match. -/
def entSum (chunks : List Chunk) : Nat :=
  (chunks.map (fun c => 2 + (detectTopics c).length)).sum

/-- Relations counter accumulated by a healthy run: one per chunk plus one per
chunk-topic match. -/
def relSum (chunks : List Chunk) : Nat :=
  (chunks.map (fun c => 1 + (detectTopics c).length)).sum

/-- Store operations issued per chunk list by a healthy run. -/
def opSum (chunks : List Chunk) : Nat :=
  (chunks.map (fun c => 3 + 2 * (detectTopics c).length)).sum

/-- Concrete two-chunk document used by counterexamples and witnesses. -/
def chunkA : Chunk := ⟨"d", 0, "rag", []⟩

/-- Second chunk of the concrete document. -/
def chunkB : Chunk := ⟨"d", 1, "rag", []⟩

/-! ## Embedding providers (`embeddings.py`) -/

/-- NumPy global random state: the current seed and the number of values already
drawn since seeding. -/
structure RngSt where
  seed : Nat
  offset : Nat
  deriving DecidableEq

/-- Draw `dim` values from the global random stream (`np.random.normal(0, 1, dim)`),
advancing the state; `noise` is the underlying deterministic stream. -/
def drawVector (noise : Nat → Nat → ℚ) (st : RngSt) (dim : Nat) :
    List ℚ × RngSt :=
  ((List.range dim).map (fun i => noise st.seed (st.offset + i)),
    ⟨st.seed, st.offset + dim⟩)

/-- Model of `OpenAIEmbeddingProvider.embed_text`: return the service response,
or on failure a fallback vector drawn from the global random state without any
reseeding. -/
def openaiEmbedText (noise : Nat → Nat → ℚ) (dimension : Nat)
    (service : Option (List ℚ)) (st : RngSt) : List ℚ × RngSt :=
  match service with
  | some v => (v, st)
  | none => drawVector noise st dimension

/-- Model of `MockEmbeddingProvider.embed_text`: reseed the global state with
`hash(text) % 2**32` and draw the vector. -/
def mockEmbedText (noise : Nat → Nat → ℚ) (pyHash : String → Nat)
    (dimension : Nat) (text : String) (_st : RngSt) : List ℚ × RngSt :=
  drawVector noise ⟨pyHash text % 2 ^ 32, 0⟩ dimension

/-- Concrete random stream used in counterexamples. -/
def indexNoise : Nat → Nat → ℚ := fun s i => ((s + i : Nat) : ℚ)

/-! ## Theorems -/

theorem dedupLoop_sublist (seen : List String) (l : List RetrievalResult) :
    (dedupLoop seen l).Sublist l := by
  induction l generalizing seen with
  | nil => simp [dedupLoop]
  | cons a l ih =>
    simp only [dedupLoop]
    split
    · exact (ih seen).cons a
    · exact (ih (a.content :: seen)).cons₂ a

theorem mem_dedupLoop {r : RetrievalResult} :
    ∀ {seen : List String} {l : List RetrievalResult},
      r ∈ dedupLoop seen l → r ∈ l ∧ r.content ∉ seen := by
  intro seen l
  induction l generalizing seen with
  | nil => simp [dedupLoop]
  | cons a l ih =>
    simp only [dedupLoop]
    split
    · intro h
      rcases ih h with ⟨h1, h2⟩
      exact ⟨List.mem_cons_of_mem a h1, h2⟩
    · intro h
      rcases List.mem_cons.mp h with h | h
      · subst h
        exact ⟨List.mem_cons_self _ _, by assumption⟩
      · rcases ih h with ⟨h1, h2⟩
        refine ⟨List.mem_cons_of_mem a h1, ?_⟩
        intro hc
        exact h2 (List.mem_cons_of_mem _ hc)

theorem dedupLoop_pairwise (seen : List String) (l : List RetrievalResult) :
    (dedupLoop seen l).Pairwise (fun a b => a.content ≠ b.content) := by
  induction l generalizing seen with
  | nil => simp [dedupLoop]
  | cons a l ih =>
    simp only [dedupLoop]
    split
    · exact ih seen
    · refine List.Pairwise.cons ?_ (ih (a.content :: seen))
      intro b hb
      have := (mem_dedupLoop hb).2
      intro hab
      exact this (by simp [← hab])

theorem dedupLoop_complete (seen : List String) (l : List RetrievalResult) :
    ∀ r ∈ l, r.content ∈ seen ∨ ∃ r2 ∈ dedupLoop seen l, r2.content = r.content := by
  induction l generalizing seen with
  | nil => simp
  | cons a l ih =>
    intro r hr
    simp only [dedupLoop]
    rcases List.mem_cons.mp hr with h | h
    · subst h
      split
      · exact Or.inl (by assumption)
      · exact Or.inr ⟨r, List.mem_cons_self _ _, rfl⟩
    · split
      · exact ih seen r h
      · rcases ih (a.content :: seen) r h with hc | ⟨r2, hr2, he⟩
        · rcases List.mem_cons.mp hc with hc | hc
          · exact Or.inr ⟨a, List.mem_cons_self _ _, hc.symm⟩
          · exact Or.inl hc
        · exact Or.inr ⟨r2, List.mem_cons_of_mem a hr2, he⟩

theorem dedupLoop_find (seen : List String) (l : List RetrievalResult) :
    ∀ r ∈ dedupLoop seen l,
      l.find? (fun x => x.content == r.content) = some r := by
  induction l generalizing seen with
  | nil => simp [dedupLoop]
  | cons a l ih =>
    intro r hr
    simp only [dedupLoop] at hr
    split at hr
    · have hne : r.content ≠ a.content := by
        intro he
        exact (mem_dedupLoop hr).2 (he ▸ (by assumption))
      have : (a.content == r.content) = false := by
        simp [Ne.symm hne]
      simp only [List.find?, this]
      exact ih seen r hr
    · rcases List.mem_cons.mp hr with h | h
      · subst h
        simp [List.find?]
      · have hns : r.content ∉ a.content :: seen := (mem_dedupLoop h).2
        have hne : r.content ≠ a.content := by
          intro he
          exact hns (by simp [he])
        have : (a.content == r.content) = false := by
          simp [Ne.symm hne]
        simp only [List.find?, this]
        exact ih (a.content :: seen) r h

/-- C4: deduplication keeps exactly the first occurrence of each distinct content
value, preserving input order (the output is a sublist of the input, its contents
are pairwise distinct, every input content is represented, every kept element is
the first element of the input with its content, and the output is no longer than
the input). -/
theorem claim4_dedup_first_occurrence (l : List RetrievalResult) :
    (deduplicateResults l).Sublist l ∧
    (deduplicateResults l).Pairwise (fun a b => a.content ≠ b.content) ∧
    (∀ r ∈ l, ∃ r2 ∈ deduplicateResults l, r2.content = r.content) ∧
    (∀ r ∈ deduplicateResults l,
      l.find? (fun x => x.content == r.content) = some r) ∧
    (deduplicateResults l).length ≤ l.length := by
  refine ⟨dedupLoop_sublist [] l, dedupLoop_pairwise [] l, ?_, dedupLoop_find [] l,
    (dedupLoop_sublist [] l).length_le⟩
  intro r hr
  rcases dedupLoop_complete [] l r hr with hc | h
  · simp at hc
  · exact h

/-- Witness for C4 at a concrete one-element input. -/
theorem claim4_dedup_first_occurrence_witness :
    [sampleResult].find? (fun x => x.content == sampleResult.content) =
      some sampleResult := by
  refine (claim4_dedup_first_occurrence [sampleResult]).2.2.2.1 sampleResult ?_
  simp [deduplicateResults, dedupLoop]

theorem dotP_cons (x y : ℝ) (v w : List ℝ) :
    dotP (x :: v) (y :: w) = x * y + dotP v w := by
  simp [dotP]

theorem dotP_self_nonneg (v : List ℝ) : 0 ≤ dotP v v := by
  induction v with
  | nil => simp [dotP]
  | cons x v ih =>
    rw [dotP_cons]
    exact add_nonneg (mul_self_nonneg x) ih

theorem dotP_self_pos {v : List ℝ} {x : ℝ} (hx : x ∈ v) (hne : x ≠ 0) :
    0 < dotP v v := by
  induction v with
  | nil => cases hx
  | cons a v ih =>
    rw [dotP_cons]
    rcases List.mem_cons.mp hx with h | h
    · subst h
      exact add_pos_of_pos_of_nonneg (mul_self_pos.mpr hne) (dotP_self_nonneg v)
    · exact add_pos_of_nonneg_of_pos (mul_self_nonneg a) (ih h)

/-- C9: the cosine similarity of `_cosine_similarity` is 0.0 when either vector
has zero norm, always lies in [-1, 1], equals 1.0 on two identical non-zero
vectors, and equals 0.0 on two vectors with zero dot product. -/
theorem claim9_cosine_similarity (v w : List ℝ) :
    (listNorm v = 0 ∨ listNorm w = 0 → cosineSimilarity v w = 0) ∧
    (-1 ≤ cosineSimilarity v w ∧ cosineSimilarity v w ≤ 1) ∧
    ((∃ x ∈ v, x ≠ 0) → cosineSimilarity v v = 1) ∧
    (dotP v w = 0 → cosineSimilarity v w = 0) := by
  have hbounds : ∀ q : ℝ, -1 ≤ max (-1.0) (min 1.0 q) ∧ max (-1.0) (min 1.0 q) ≤ 1 := by
    intro q
    constructor
    · have h0 : (-1 : ℝ) ≤ -1.0 := by norm_num
      exact le_trans h0 (le_max_left _ _)
    · have h1 : max (-1.0) (min 1.0 q) ≤ 1.0 := max_le (by norm_num) (min_le_left _ _)
      linarith
  refine ⟨?_, ?_, ?_, ?_⟩
  · intro h
    unfold cosineSimilarity
    by_cases hl : v.length ≠ w.length
    · rw [if_pos hl]
      norm_num
    · rw [if_neg hl, if_pos h]
      norm_num
  · unfold cosineSimilarity
    by_cases hl : v.length ≠ w.length
    · rw [if_pos hl]
      norm_num
    · rw [if_neg hl]
      by_cases hz : listNorm v = 0 ∨ listNorm w = 0
      · rw [if_pos hz]
        norm_num
      · rw [if_neg hz]
        exact hbounds _
  · rintro ⟨x, hx, hne⟩
    have hpos : 0 < dotP v v := dotP_self_pos hx hne
    have hnorm : listNorm v ≠ 0 := by
      unfold listNorm
      exact ne_of_gt (Real.sqrt_pos.mpr hpos)
    unfold cosineSimilarity
    rw [if_neg (by simp), if_neg (by simp [hnorm])]
    have hs : listNorm v * listNorm v = dotP v v := by
      unfold listNorm
      exact Real.mul_self_sqrt (le_of_lt hpos)
    have h1 : min (1.0 : ℝ) 1 = 1 := min_eq_right (by norm_num)
    have h2 : max (-1.0 : ℝ) 1 = 1 := max_eq_right (by norm_num)
    rw [hs, div_self (ne_of_gt hpos), h1, h2]
  · intro h
    unfold cosineSimilarity
    by_cases hl : v.length ≠ w.length
    · rw [if_pos hl]
      norm_num
    · rw [if_neg hl]
      by_cases hz : listNorm v = 0 ∨ listNorm w = 0
      · rw [if_pos hz]
        norm_num
      · rw [if_neg hz, h, zero_div]
        have h1 : min (1.0 : ℝ) 0 = 0 := min_eq_right (by norm_num)
        have h2 : max (-1.0 : ℝ) 0 = 0 := max_eq_right (by norm_num)
        rw [h1, h2]

/-- Witness for C9: identical, orthogonal and zero-norm concrete vectors. -/
theorem claim9_cosine_similarity_witness :
    cosineSimilarity [(1 : ℝ), 0] [(1 : ℝ), 0] = 1 ∧
    cosineSimilarity [(1 : ℝ), 0] [(0 : ℝ), 1] = 0 ∧
    cosineSimilarity [(0 : ℝ)] [(37 : ℝ)] = 0 :=
  ⟨(claim9_cosine_similarity [(1 : ℝ), 0] [(1 : ℝ), 0]).2.2.1
      ⟨1, by simp, one_ne_zero⟩,
    (claim9_cosine_similarity [(1 : ℝ), 0] [(0 : ℝ), 1]).2.2.2
      (by norm_num [dotP]),
    (claim9_cosine_similarity [(0 : ℝ)] [(37 : ℝ)]).1
      (Or.inl (by norm_num [listNorm, dotP, Real.sqrt_zero]))⟩

theorem mem_insertDesc {x a : RetrievalResult} {l : List RetrievalResult} :
    a ∈ insertDesc x l → a = x ∨ a ∈ l := by
  induction l with
  | nil =>
    intro h
    simp [insertDesc] at h
    exact Or.inl h
  | cons y ys ih =>
    simp only [insertDesc]
    split
    · intro h
      exact List.mem_cons.mp h
    · intro h
      rcases List.mem_cons.mp h with h | h
      · exact Or.inr (h ▸ List.mem_cons_self _ _)
      · rcases ih h with h | h
        · exact Or.inl h
        · exact Or.inr (List.mem_cons_of_mem y h)

theorem pairwise_insertDesc {x : RetrievalResult} {l : List RetrievalResult}
    (hl : l.Pairwise (fun a b => b.score ≤ a.score)) :
    (insertDesc x l).Pairwise (fun a b => b.score ≤ a.score) := by
  induction l with
  | nil => simp [insertDesc]
  | cons y ys ih =>
    rcases List.pairwise_cons.mp hl with ⟨hy, hys⟩
    simp only [insertDesc]
    split
    · rename_i hcond
      refine List.Pairwise.cons ?_ hl
      intro b hb
      rcases List.mem_cons.mp hb with rfl | hb
      · exact hcond
      · exact le_trans (hy b hb) hcond
    · rename_i hcond
      push_neg at hcond
      refine List.Pairwise.cons ?_ (ih hys)
      intro b hb
      rcases mem_insertDesc hb with rfl | hb
      · exact le_of_lt hcond
      · exact hy b hb

theorem filter_insertDesc (x : RetrievalResult) (l : List RetrievalResult)
    (s : ℝ) :
    (insertDesc x l).filter (fun r => decide (r.score = s)) =
      ((x :: l).filter (fun r => decide (r.score = s))) := by
  induction l with
  | nil => rfl
  | cons y ys ih =>
    simp only [insertDesc]
    split
    · rfl
    · rename_i hcond
      push_neg at hcond
      by_cases hx : x.score = s
      · have hy : ¬ (y.score = s) := by
          intro h
          rw [← hx] at h
          exact absurd (h ▸ hcond) (lt_irrefl _)
        simp [List.filter_cons, hx, hy, ih]
      · simp [List.filter_cons, hx, ih]

theorem filter_sortByScoreDesc (l : List RetrievalResult) (s : ℝ) :
    (sortByScoreDesc l).filter (fun r => decide (r.score = s)) =
      l.filter (fun r => decide (r.score = s)) := by
  induction l with
  | nil => rfl
  | cons x xs ih =>
    simp only [sortByScoreDesc]
    rw [filter_insertDesc]
    simp [List.filter_cons, ih]

theorem sorted_sortByScoreDesc (l : List RetrievalResult) :
    (sortByScoreDesc l).Pairwise (fun a b => b.score ≤ a.score) := by
  induction l with
  | nil => simp [sortByScoreDesc]
  | cons x xs ih => exact pairwise_insertDesc ih

/-- C8: after a successful rerank the list is sorted by descending final score,
and the sort is stable — for every score value, the sub-list of results carrying
that final score keeps exactly its pre-sort (rescored input) order. -/
theorem claim8_stable_descending_sort (embedText : String → Except Unit (List ℝ))
    (query : String) (qe : List ℝ) (results : List RetrievalResult)
    (h : embedText query = Except.ok qe) :
    (rerankResults embedText query results).Pairwise
      (fun a b => b.score ≤ a.score) ∧
    ∀ s : ℝ,
      (rerankResults embedText query results).filter
          (fun r => decide (r.score = s)) =
        (results.map (rescoreResult embedText qe query)).filter
          (fun r => decide (r.score = s)) := by
  simp only [rerankResults, h]
  exact ⟨sorted_sortByScoreDesc _, fun s => filter_sortByScoreDesc _ s⟩

/-- Witness for C8 with a concrete embedder and a one-element input. -/
theorem claim8_stable_descending_sort_witness :
    (rerankResults (fun _ => Except.ok [(1 : ℝ)]) "q" [sampleResult]).Pairwise
      (fun a b => b.score ≤ a.score) :=
  (claim8_stable_descending_sort (fun _ => Except.ok [(1 : ℝ)]) "q" [(1 : ℝ)]
    [sampleResult] rfl).1

theorem dictGet_dictSet_same (m : Metadata) (k : String) (v : MVal) :
    dictGet (dictSet m k v) k = some v := by
  induction m with
  | nil => simp [dictSet, dictGet, List.find?]
  | cons p m ih =>
    obtain ⟨k2, v2⟩ := p
    simp only [dictSet]
    split
    · simp [dictGet, List.find?]
    · rename_i hbeq
      have hne : (k2 == k) = false := by
        simpa using hbeq
      simp only [dictGet, List.find?, hne]
      exact ih

theorem dictGet_dictSet_ne (m : Metadata) (k k2 : String) (v : MVal)
    (h : k2 ≠ k) : dictGet (dictSet m k v) k2 = dictGet m k2 := by
  induction m with
  | nil =>
    simp [dictSet, dictGet, List.find?, beq_eq_false_iff_ne.mpr (Ne.symm h)]
  | cons p m ih =>
    obtain ⟨k3, v3⟩ := p
    simp only [dictSet]
    split
    · rename_i hbeq
      have hk : k3 = k := by simpa using hbeq
      subst hk
      simp [dictGet, List.find?, beq_eq_false_iff_ne.mpr (Ne.symm h)]
    · rename_i hbeq
      by_cases hk32 : k3 = k2
      · subst hk32
        simp [dictGet, List.find?]
      · have hne2 : (k3 == k2) = false := beq_eq_false_iff_ne.mpr hk32
        simp only [dictGet, List.find?, hne2]
        exact ih

/-- C3: the reranked score of every result whose source is one of the three
strategies equals the original score times the source weight
(vector 1.0, graph 0.9, fulltext 0.8), the length bonus (1.1 in [50,500],
1.05 above 500, 0.9 otherwise), the keyword bonus (1.0 + 0.1 per distinct
case-insensitive shared token), and the semantic bonus (1.0 + 0.5 times the
cosine similarity of the query embedding and the embedding of the content
truncated to 500 characters, only when the content is longer than 20
characters, and 1.0 when embedding fails); the original score and the four
factors are recorded in the result metadata, and the rerank pass applies this
rescoring to every result before the stable sort. -/
theorem claim3_rerank_score_formula (embedText : String → Except Unit (List ℝ))
    (query : String) (qe : List ℝ) (results : List RetrievalResult)
    (h : embedText query = Except.ok qe) :
    rerankResults embedText query results =
      sortByScoreDesc (results.map (rescoreResult embedText qe query)) ∧
    ∀ r : RetrievalResult,
      r.source = "vector" ∨ r.source = "graph" ∨ r.source = "fulltext" →
      (rescoreResult embedText qe query r).score =
        r.score *
          (if r.source = "vector" then (1.0 : ℝ)
            else if r.source = "graph" then 0.9 else 0.8) *
          (if 50 ≤ r.content.length ∧ r.content.length ≤ 500 then (1.1 : ℝ)
            else if 500 < r.content.length then 1.05 else 0.9) *
          (1.0 + ((pySplit (pyLower query)).dedup.filter
              (fun w2 => (pySplit (pyLower r.content)).contains w2)).length * (0.1 : ℝ)) *
          (if 20 < r.content.length then
              match embedText (pyTake r.content 500) with
              | Except.ok ce => 1.0 + cosineSimilarity qe ce * 0.5
              | Except.error _ => 1.0
            else 1.0) ∧
      dictGet (rescoreResult embedText qe query r).metadata "original_score" =
        some (MVal.num r.score) ∧
      dictGet (rescoreResult embedText qe query r).metadata "rerank_factors" =
        some (MVal.factors
          (if r.source = "vector" then (1.0 : ℝ)
            else if r.source = "graph" then 0.9 else 0.8)
          (if 50 ≤ r.content.length ∧ r.content.length ≤ 500 then (1.1 : ℝ)
            else if 500 < r.content.length then 1.05 else 0.9)
          (1.0 + ((pySplit (pyLower query)).dedup.filter
              (fun w2 => (pySplit (pyLower r.content)).contains w2)).length * (0.1 : ℝ))
          (if 20 < r.content.length then
              match embedText (pyTake r.content 500) with
              | Except.ok ce => 1.0 + cosineSimilarity qe ce * 0.5
              | Except.error _ => 1.0
            else 1.0)) := by
  refine ⟨by simp [rerankResults, h], ?_⟩
  intro r hsrc
  have hw : (if r.source = "vector" then (1.0 : ℝ)
      else if r.source = "graph" then 0.9
      else if r.source = "fulltext" then 0.8 else 1.0) =
      (if r.source = "vector" then (1.0 : ℝ)
      else if r.source = "graph" then 0.9 else 0.8) := by
    rcases hsrc with h1 | h1 | h1 <;> simp [h1]
  refine ⟨?_, ?_, ?_⟩
  · simp only [rescoreResult, hw]
  · simp only [rescoreResult]
    rw [dictGet_dictSet_ne _ _ _ _ (by decide), dictGet_dictSet_same]
  · simp only [rescoreResult, hw]
    rw [dictGet_dictSet_same]

/-- Witness for C3 at a concrete vector-source result. -/
theorem claim3_rerank_score_formula_witness :
    dictGet (rescoreResult (fun _ => Except.ok [(1 : ℝ)]) [(1 : ℝ)] "q"
        sampleResult).metadata "original_score" =
      some (MVal.num sampleResult.score) :=
  ((claim3_rerank_score_formula (fun _ => Except.ok [(1 : ℝ)]) "q" [(1 : ℝ)]
    [sampleResult] rfl).2 sampleResult (Or.inl rfl)).2.1

/-- C1 (code evidence): at query "x", mode "bogus", top_k 5, the body of
`retrieve` raises the unsupported-mode `ValueError`, but the outer handler of
`retrieve` swallows it, so the caller receives an empty list instead of the
validation error. -/
theorem claim1_unsupported_mode_swallowed :
    retrieveBody (fun _ => Except.ok []) (Except.ok []) (fun _ => Except.ok [])
        none "x" "bogus" 5 true = Except.error ("不支持的检索模式: " ++ "bogus") ∧
    retrieve (fun _ => Except.ok []) (Except.ok []) (fun _ => Except.ok [])
        none "x" "bogus" 5 true = [] :=
  ⟨rfl, rfl⟩

/-- C2: hybrid retrieval never raises — it returns a list built from the three
per-strategy contributions; a vector search error yields an empty vector
contribution, a graph store failing on every entity yields an empty graph
contribution, a fulltext exception yields an empty fulltext contribution, and a
failing vector store gives the same hybrid outcome as a healthy empty one. -/
theorem claim2_hybrid_degradation
    (embedText : String → Except Unit (List ℝ))
    (vres : Except String (List VectorHit))
    (related : String → Except String (List RelatedEntity)) (ftExc : Option String)
    (query : String) (topK : Nat) (rr : Bool) :
    (∃ l, retrieveBody embedText vres related ftExc query "hybrid" topK rr =
        Except.ok l ∧
      retrieve embedText vres related ftExc query "hybrid" topK rr = l) ∧
    (∀ e, vectorRetrieve (Except.error e) = []) ∧
    (∀ (related2 : String → Except String (List RelatedEntity)) q2 k2,
      (∀ id, ∃ msg, related2 id = Except.error msg) →
      graphRetrieve related2 q2 k2 = []) ∧
    (∀ e q2 k2, fulltextRetrieve (some e) q2 k2 = []) ∧
    (∀ e, retrieveBody embedText (Except.error e) related ftExc query "hybrid"
        topK rr =
      retrieveBody embedText (Except.ok []) related ftExc query "hybrid" topK rr) := by
  refine ⟨⟨postProcess embedText query topK rr
      (vectorRetrieve vres ++ graphRetrieve related query (topK / 3 + 2) ++
        fulltextRetrieve ftExc query (topK / 3 + 2)), rfl, rfl⟩,
    fun e => rfl, ?_, fun e q2 k2 => rfl, fun e => rfl⟩
  intro related2 q2 k2 h
  have aux : ∀ (es : List EntityInfo) (acc : List RetrievalResult),
      es.foldl (fun acc e =>
        match related2 e.id with
        | .error _ => acc
        | .ok rels => acc ++ (rels.take k2).map (fun rel =>
            { content := "实体" ++ e.name ++ "与" ++ rel.entityId ++ "存在" ++
                rel.relationType ++ "关系"
              score := rel.weight
              source := "graph"
              metadata := [("entity", entityMVal e),
                ("related_entity", MVal.str rel.entityId),
                ("relation_type", MVal.str rel.relationType)] })) acc = acc := by
    intro es
    induction es with
    | nil => intro acc; rfl
    | cons e es ih =>
      intro acc
      obtain ⟨msg, hm⟩ := h e.id
      simp only [List.foldl_cons, hm]
      exact ih acc
  simp only [graphRetrieve]
  rw [aux (extractEntities q2) []]
  exact List.take_nil

/-- Witness for C2 with a graph store that fails on every entity. -/
theorem claim2_hybrid_degradation_witness :
    graphRetrieve (fun _ => Except.error "connection refused") "q" 3 = [] :=
  (claim2_hybrid_degradation (fun _ => Except.ok []) (Except.ok [])
    (fun _ => Except.ok []) none "q" 3 true).2.2.1
    (fun _ => Except.error "connection refused") "q" 3
    (fun _ => ⟨"connection refused", rfl⟩)

/-- C6: if the chunk loop of `build_graph_from_chunks` raises at any point, the
call does not re-raise — it returns a result with `success = false`, the error
message, and zero entity and relation counts. -/
theorem claim6_build_graph_failure (oracle : Nat → Option String)
    (g0 : GraphState) (chunks : List Chunk) (st : BuildSt) (e : String)
    (h : runChunks oracle chunks ⟨g0, 0, 0, 0⟩ = (st, some e)) :
    (buildGraphFromChunks oracle g0 chunks).1 =
      { success := false, chunksProcessed := chunks.length, graphEntities := 0,
        graphRelations := 0, error := some e } := by
  simp [buildGraphFromChunks, h]

/-- Witness for C6 with a store that fails on the first operation. -/
theorem claim6_build_graph_failure_witness :
    (buildGraphFromChunks (fun _ => some "Neo4j连接失败") emptyGraph [chunkA]).1 =
      { success := false, chunksProcessed := 1, graphEntities := 0,
        graphRelations := 0, error := some "Neo4j连接失败" } :=
  claim6_build_graph_failure (fun _ => some "Neo4j连接失败") emptyGraph [chunkA]
    ⟨emptyGraph, 1, 0, 0⟩ "Neo4j连接失败" rfl

/-- C7 (refutation): under service failure the fallback vector is drawn from the
global random stream without reseeding, so two successive calls under the same
text return different vectors. -/
theorem claim7_fallback_not_deterministic :
    (openaiEmbedText indexNoise 2 none ⟨0, 0⟩).1 ≠
      (openaiEmbedText indexNoise 2 none
        (openaiEmbedText indexNoise 2 none ⟨0, 0⟩).2).1 := by
  decide

/-- C7 (amended): the fallback vector has the configured dimension and is
returned instead of raising; the deterministic text-seeded behaviour belongs to
`MockEmbeddingProvider.embed_text`, whose output is independent of the incoming
random state and has the configured dimension. -/
theorem claim7_amended_behaviour (noise : Nat → Nat → ℚ) (pyHash : String → Nat)
    (dimension : Nat) (st st2 : RngSt) (text : String) (v : List ℚ) :
    (openaiEmbedText noise dimension none st).1.length = dimension ∧
    (openaiEmbedText noise dimension (some v) st).1 = v ∧
    (mockEmbedText noise pyHash dimension text st).1 =
      (mockEmbedText noise pyHash dimension text st2).1 ∧
    (mockEmbedText noise pyHash dimension text st).1.length = dimension := by
  simp [openaiEmbedText, mockEmbedText, drawVector]

/-- C10: when deduplication leaves at most one unique result, the reranker is
skipped — the call returns the deduplicated list truncated to `top_k`, every
returned result is an unmodified input result, and in particular no rerank
metadata keys appear if the inputs lacked them. -/
theorem claim10_skip_rerank (embedText : String → Except Unit (List ℝ))
    (query : String) (topK : Nat) (all : List RetrievalResult)
    (h : (deduplicateResults all).length ≤ 1) :
    postProcess embedText query topK true all =
      (deduplicateResults all).take topK ∧
    (∀ vres related ftExc mode,
      modeResults vres related ftExc query mode topK = Except.ok all →
      retrieve embedText vres related ftExc query mode topK true =
        (deduplicateResults all).take topK) ∧
    (∀ r ∈ (deduplicateResults all).take topK, r ∈ all) ∧
    ((∀ r ∈ all, dictGet r.metadata "original_score" = none ∧
        dictGet r.metadata "rerank_factors" = none) →
      ∀ r ∈ (deduplicateResults all).take topK,
        dictGet r.metadata "original_score" = none ∧
        dictGet r.metadata "rerank_factors" = none) := by
  have h2 : ¬ (1 < (deduplicateResults all).length) := by omega
  have hpp : postProcess embedText query topK true all =
      (deduplicateResults all).take topK := by
    simp [postProcess, h2]
  have hmem : ∀ r ∈ (deduplicateResults all).take topK, r ∈ all := by
    intro r hr
    exact (dedupLoop_sublist [] all).subset (List.mem_of_mem_take hr)
  refine ⟨hpp, ?_, hmem, ?_⟩
  · intro vres related ftExc mode hm
    simp [retrieve, retrieveBody, hm, hpp]
  · intro hall r hr
    exact hall r (hmem r hr)

/-- Witness for C10 at a one-result input. -/
theorem claim10_skip_rerank_witness :
    postProcess (fun _ => Except.ok []) "q" 5 true [sampleResult] =
      (deduplicateResults [sampleResult]).take 5 := by
  refine (claim10_skip_rerank (fun _ => Except.ok []) "q" 5 [sampleResult] ?_).1
  simp [deduplicateResults, dedupLoop]

theorem any_nodeKey_iff (g : GraphState) (lab i : String) :
    (g.nodes.any (fun n => n.label == lab && n.id == i)) = true ↔
      (lab, i) ∈ nodeKeys g := by
  simp only [List.any_eq_true, Bool.and_eq_true, beq_iff_eq, nodeKeys,
    List.mem_map]
  constructor
  · rintro ⟨n, hn, h1, h2⟩
    exact ⟨n, hn, by rw [h1, h2]⟩
  · rintro ⟨n, hn, he⟩
    exact ⟨n, hn, congrArg Prod.fst he, congrArg Prod.snd he⟩

theorem any_nodeId_iff (g : GraphState) (i : String) :
    (g.nodes.any (fun n => n.id == i)) = true ↔ i ∈ nodeIds g := by
  simp only [List.any_eq_true, beq_iff_eq, nodeIds, List.mem_map]

theorem any_edgeKey_iff (g : GraphState) (f t ty : String) :
    (g.edges.any (fun ed =>
      ed.fromId == f && ed.toId == t && ed.type == ty)) = true ↔
      (f, t, ty) ∈ edgeKeys g := by
  simp only [List.any_eq_true, Bool.and_eq_true, beq_iff_eq, edgeKeys,
    List.mem_map]
  constructor
  · rintro ⟨ed, hed, ⟨h1, h2⟩, h3⟩
    exact ⟨ed, hed, by rw [h1, h2, h3]⟩
  · rintro ⟨ed, hed, he⟩
    exact ⟨ed, hed, ⟨congrArg (fun p => p.1) he, congrArg (fun p => p.2.1) he⟩,
      congrArg (fun p => p.2.2) he⟩

theorem nodeKeys_map_props (g : GraphState) (cond : GNode → Bool)
    (f2 : GNode → Props) :
    nodeKeys { g with nodes := g.nodes.map (fun n =>
      if cond n then { n with props := f2 n } else n) } = nodeKeys g := by
  simp only [nodeKeys, List.map_map]
  apply List.map_congr_left
  intro n hn
  simp only [Function.comp]
  split <;> rfl

theorem edgeKeys_map_props (g : GraphState) (cond : GEdge → Bool)
    (f2 : GEdge → Props) :
    edgeKeys { g with edges := g.edges.map (fun ed =>
      if cond ed then { ed with props := f2 ed } else ed) } = edgeKeys g := by
  simp only [edgeKeys, List.map_map]
  apply List.map_congr_left
  intro ed hed
  simp only [Function.comp]
  split <;> rfl

theorem addEntity_edges (g : GraphState) (e : GEntity) :
    (addEntity g e).edges = g.edges := by
  unfold addEntity
  dsimp only
  split <;> rfl

theorem edgeKeys_addEntity (g : GraphState) (e : GEntity) :
    edgeKeys (addEntity g e) = edgeKeys g := by
  unfold edgeKeys
  rw [addEntity_edges]

theorem nodeKeys_addEntity (g : GraphState) (e : GEntity) :
    nodeKeys (addEntity g e) =
      if (e.type, e.id) ∈ nodeKeys g then nodeKeys g
      else nodeKeys g ++ [(e.type, e.id)] := by
  unfold addEntity
  dsimp only
  by_cases h : (e.type, e.id) ∈ nodeKeys g
  · rw [if_pos ((any_nodeKey_iff g e.type e.id).mpr h), if_pos h]
    exact nodeKeys_map_props g _ _
  · rw [if_neg (fun hc => h ((any_nodeKey_iff g e.type e.id).mp hc)), if_neg h]
    simp [nodeKeys]

theorem nodeKeys_addEntity_of_mem (g : GraphState) (e : GEntity)
    (h : (e.type, e.id) ∈ nodeKeys g) :
    nodeKeys (addEntity g e) = nodeKeys g := by
  rw [nodeKeys_addEntity, if_pos h]

theorem mem_nodeKeys_addEntity_self (g : GraphState) (e : GEntity) :
    (e.type, e.id) ∈ nodeKeys (addEntity g e) := by
  rw [nodeKeys_addEntity]
  split
  · assumption
  · simp

theorem mem_nodeKeys_addEntity_mono (g : GraphState) (e : GEntity)
    {k : String × String} (h : k ∈ nodeKeys g) :
    k ∈ nodeKeys (addEntity g e) := by
  rw [nodeKeys_addEntity]
  split
  · exact h
  · exact List.mem_append_left _ h

theorem nodeIds_eq_map (g : GraphState) :
    nodeIds g = (nodeKeys g).map Prod.snd := by
  simp [nodeIds, nodeKeys, List.map_map, Function.comp]

theorem mem_nodeIds_of_key {g : GraphState} {lab i : String}
    (h : (lab, i) ∈ nodeKeys g) : i ∈ nodeIds g := by
  rw [nodeIds_eq_map]
  exact List.mem_map_of_mem Prod.snd h

theorem mem_nodeIds_addEntity_mono (g : GraphState) (e : GEntity) {i : String}
    (h : i ∈ nodeIds g) : i ∈ nodeIds (addEntity g e) := by
  rw [nodeIds_eq_map] at h ⊢
  obtain ⟨k, hk, rfl⟩ := List.mem_map.mp h
  exact List.mem_map_of_mem Prod.snd (mem_nodeKeys_addEntity_mono g e hk)

theorem addRelation_nodes (g : GraphState) (r : GRelationInput) :
    (addRelation g r).nodes = g.nodes := by
  unfold addRelation
  dsimp only
  split
  · split <;> rfl
  · rfl

theorem nodeKeys_addRelation (g : GraphState) (r : GRelationInput) :
    nodeKeys (addRelation g r) = nodeKeys g := by
  unfold nodeKeys
  rw [addRelation_nodes]

theorem nodeIds_addRelation (g : GraphState) (r : GRelationInput) :
    nodeIds (addRelation g r) = nodeIds g := by
  unfold nodeIds
  rw [addRelation_nodes]

theorem edgeKeys_addRelation (g : GraphState) (r : GRelationInput)
    (hf : r.fromEntity ∈ nodeIds g) (ht : r.toEntity ∈ nodeIds g) :
    edgeKeys (addRelation g r) =
      if (r.fromEntity, r.toEntity, pyUpper r.type) ∈ edgeKeys g then edgeKeys g
      else edgeKeys g ++ [(r.fromEntity, r.toEntity, pyUpper r.type)] := by
  unfold addRelation
  dsimp only
  rw [if_pos (by
    rw [Bool.and_eq_true]
    exact ⟨(any_nodeId_iff g r.fromEntity).mpr hf,
      (any_nodeId_iff g r.toEntity).mpr ht⟩)]
  by_cases hk : (r.fromEntity, r.toEntity, pyUpper r.type) ∈ edgeKeys g
  · rw [if_pos ((any_edgeKey_iff g _ _ _).mpr hk), if_pos hk]
    exact edgeKeys_map_props g _ _
  · rw [if_neg (fun hc => hk ((any_edgeKey_iff g _ _ _).mp hc)), if_neg hk]
    simp [edgeKeys]

theorem edgeKeys_addRelation_cases (g : GraphState) (r : GRelationInput) :
    edgeKeys (addRelation g r) = edgeKeys g ∨
    edgeKeys (addRelation g r) =
      edgeKeys g ++ [(r.fromEntity, r.toEntity, pyUpper r.type)] := by
  unfold addRelation
  dsimp only
  split
  · split
    · exact Or.inl (edgeKeys_map_props g _ _)
    · exact Or.inr (by simp [edgeKeys])
  · exact Or.inl rfl

theorem mem_edgeKeys_addRelation_mono (g : GraphState) (r : GRelationInput)
    {k : String × String × String} (h : k ∈ edgeKeys g) :
    k ∈ edgeKeys (addRelation g r) := by
  rcases edgeKeys_addRelation_cases g r with hc | hc
  · rw [hc]; exact h
  · rw [hc]; exact List.mem_append_left _ h

theorem edgeKeys_addRelation_of_mem (g : GraphState) (r : GRelationInput)
    (hf : r.fromEntity ∈ nodeIds g) (ht : r.toEntity ∈ nodeIds g)
    (hk : (r.fromEntity, r.toEntity, pyUpper r.type) ∈ edgeKeys g) :
    edgeKeys (addRelation g r) = edgeKeys g := by
  rw [edgeKeys_addRelation g r hf ht, if_pos hk]

theorem mem_edgeKeys_addRelation_self (g : GraphState) (r : GRelationInput)
    (hf : r.fromEntity ∈ nodeIds g) (ht : r.toEntity ∈ nodeIds g) :
    (r.fromEntity, r.toEntity, pyUpper r.type) ∈ edgeKeys (addRelation g r) := by
  rw [edgeKeys_addRelation g r hf ht]
  split
  · assumption
  · simp

theorem append_left_ne_empty (a b : String) (ha : a.length ≠ 0) :
    a ++ b ≠ "" := by
  intro h
  have hl := congrArg String.length h
  rw [String.length_append] at hl
  have h0 : ("" : String).length = 0 := rfl
  rw [h0] at hl
  omega

theorem docNodeId_ne_empty (c : Chunk) : "doc_" ++ c.documentId ≠ "" := by
  apply append_left_ne_empty
  have h4 : ("doc_" : String).length = 4 := rfl
  omega

theorem chunkEntityId_ne_empty (c : Chunk) : chunkEntityId c ≠ "" := by
  unfold chunkEntityId
  apply append_left_ne_empty
  rw [String.length_append]
  have h6 : ("chunk_" : String).length + c.documentId.length +
      ("_" : String).length =
      6 + c.documentId.length + 1 := by
    have ha : ("chunk_" : String).length = 6 := rfl
    have hb : ("_" : String).length = 1 := rfl
    omega
  rw [String.length_append]
  omega

theorem topicId_ne_empty (t : String) : topicId t ≠ "" := by
  unfold topicId
  apply append_left_ne_empty
  have h6 : ("topic_" : String).length = 6 := rfl
  omega

theorem relatesTo_upper : pyUpper "RELATES_TO" = "RELATES_TO" := by
  decide

theorem containsChunk_upper :
    pyUpper "CONTAINS_CHUNK" = "CONTAINS_CHUNK" := by
  decide

theorem applyTopics_cons (c : Chunk) (t : String) (ts : List String)
    (g : GraphState) :
    applyTopics c (t :: ts) g =
      applyTopics c ts (addRelation (addEntity g (topicEntity t))
        (topicRelation c t)) := rfl

theorem addTopics_healthy (c : Chunk) (ts : List String) (st : BuildSt) :
    addTopics healthyOracle c ts st =
      ({ g := applyTopics c ts st.g, opIdx := st.opIdx + 2 * ts.length,
         entities := st.entities + ts.length,
         relations := st.relations + ts.length }, none) := by
  induction ts generalizing st with
  | nil =>
    cases st
    simp [addTopics, applyTopics]
  | cons t ts ih =>
    have hne : ¬ ((topicRelation c t).fromEntity = "" ∨
        (topicRelation c t).toEntity = "") := by
      rintro (h | h)
      · exact chunkEntityId_ne_empty c h
      · exact topicId_ne_empty t h
    simp only [addTopics, addEntitySt, addRelationSt, healthyOracle, hne,
      if_false, ite_false, if_neg hne]
    rw [ih]
    simp only [applyTopics_cons, Prod.mk.injEq, BuildSt.mk.injEq,
      List.length_cons, true_and, and_true]
    omega

theorem processChunk_healthy (c : Chunk) (st : BuildSt) :
    processChunk healthyOracle st c =
      ({ g := applyChunk st.g c,
         opIdx := st.opIdx + (3 + 2 * (detectTopics c).length),
         entities := st.entities + (2 + (detectTopics c).length),
         relations := st.relations + (1 + (detectTopics c).length) }, none) := by
  have hne : ¬ ((docChunkRelation c).fromEntity = "" ∨
      (docChunkRelation c).toEntity = "") := by
    rintro (h | h)
    · exact docNodeId_ne_empty c h
    · exact chunkEntityId_ne_empty c h
  simp only [processChunk, addEntitySt, addRelationSt, healthyOracle,
    if_neg hne]
  rw [addTopics_healthy]
  simp only [applyChunk, Prod.mk.injEq, BuildSt.mk.injEq, true_and, and_true]
  omega

theorem runChunks_healthy (chunks : List Chunk) (st : BuildSt) :
    runChunks healthyOracle chunks st =
      ({ g := applyChunks chunks st.g, opIdx := st.opIdx + opSum chunks,
         entities := st.entities + entSum chunks,
         relations := st.relations + relSum chunks }, none) := by
  induction chunks generalizing st with
  | nil =>
    cases st
    simp [runChunks, applyChunks, opSum, entSum, relSum]
  | cons c cs ih =>
    simp only [runChunks, processChunk_healthy]
    rw [ih]
    simp only [applyChunks, List.foldl_cons, Prod.mk.injEq, BuildSt.mk.injEq,
      opSum, entSum, relSum, List.map_cons, List.sum_cons, true_and, and_true]
    omega

theorem buildGraph_healthy (g0 : GraphState) (chunks : List Chunk) :
    buildGraphFromChunks healthyOracle g0 chunks =
      ({ success := true, chunksProcessed := chunks.length,
         graphEntities := entSum chunks, graphRelations := relSum chunks,
         error := none }, applyChunks chunks g0) := by
  simp [buildGraphFromChunks, runChunks_healthy]

theorem nodeIds_congr {gA gB : GraphState} (h : nodeKeys gA = nodeKeys gB) :
    nodeIds gA = nodeIds gB := by
  rw [nodeIds_eq_map, nodeIds_eq_map, h]

theorem topicRelation_type_upper (c : Chunk) (t : String) :
    pyUpper (topicRelation c t).type = "RELATES_TO" :=
  relatesTo_upper

theorem docChunkRelation_type_upper (c : Chunk) :
    pyUpper (docChunkRelation c).type = "CONTAINS_CHUNK" :=
  containsChunk_upper

theorem nodeKeys_applyTopics_mono (c : Chunk) (ts : List String) :
    ∀ (g : GraphState) (k : String × String),
      k ∈ nodeKeys g → k ∈ nodeKeys (applyTopics c ts g) := by
  induction ts with
  | nil => intro g k h; exact h
  | cons t ts ih =>
    intro g k h
    rw [applyTopics_cons]
    apply ih
    rw [nodeKeys_addRelation]
    exact mem_nodeKeys_addEntity_mono _ _ h

theorem edgeKeys_applyTopics_mono (c : Chunk) (ts : List String) :
    ∀ (g : GraphState) (k : String × String × String),
      k ∈ edgeKeys g → k ∈ edgeKeys (applyTopics c ts g) := by
  induction ts with
  | nil => intro g k h; exact h
  | cons t ts ih =>
    intro g k h
    rw [applyTopics_cons]
    apply ih
    apply mem_edgeKeys_addRelation_mono
    rw [edgeKeys_addEntity]
    exact h

theorem applyTopics_adds (c : Chunk) (ts : List String) :
    ∀ (g : GraphState), chunkEntityId c ∈ nodeIds g →
      ∀ t ∈ ts, ("Topic", topicId t) ∈ nodeKeys (applyTopics c ts g) ∧
        (chunkEntityId c, topicId t, "RELATES_TO") ∈
          edgeKeys (applyTopics c ts g) := by
  induction ts with
  | nil => intro g _ t ht; cases ht
  | cons t2 ts ih =>
    intro g hch t ht
    rw [applyTopics_cons]
    have hg1key : ("Topic", topicId t2) ∈ nodeKeys (addEntity g (topicEntity t2)) :=
      mem_nodeKeys_addEntity_self g (topicEntity t2)
    have hch1 : chunkEntityId c ∈ nodeIds (addEntity g (topicEntity t2)) :=
      mem_nodeIds_addEntity_mono g _ hch
    have htop1 : topicId t2 ∈ nodeIds (addEntity g (topicEntity t2)) :=
      mem_nodeIds_of_key hg1key
    have hch2 : chunkEntityId c ∈
        nodeIds (addRelation (addEntity g (topicEntity t2)) (topicRelation c t2)) := by
      rw [nodeIds_addRelation]
      exact hch1
    rcases List.mem_cons.mp ht with rfl | ht2
    · constructor
      · apply nodeKeys_applyTopics_mono
        rw [nodeKeys_addRelation]
        exact hg1key
      · apply edgeKeys_applyTopics_mono
        have hself := mem_edgeKeys_addRelation_self (addEntity g (topicEntity t))
          (topicRelation c t) hch1 htop1
        rw [topicRelation_type_upper] at hself
        exact hself
    · exact ih _ hch2 t ht2

theorem applyTopics_preserved (c : Chunk) (ts : List String) :
    ∀ (g : GraphState), chunkEntityId c ∈ nodeIds g →
      (∀ t ∈ ts, ("Topic", topicId t) ∈ nodeKeys g) →
      (∀ t ∈ ts, (chunkEntityId c, topicId t, "RELATES_TO") ∈ edgeKeys g) →
      nodeKeys (applyTopics c ts g) = nodeKeys g ∧
        edgeKeys (applyTopics c ts g) = edgeKeys g := by
  induction ts with
  | nil => intro g _ _ _; exact ⟨rfl, rfl⟩
  | cons t ts ih =>
    intro g hch hn he
    rw [applyTopics_cons]
    have h1n : nodeKeys (addEntity g (topicEntity t)) = nodeKeys g :=
      nodeKeys_addEntity_of_mem _ _ (hn t (List.mem_cons_self _ _))
    have h1e : edgeKeys (addEntity g (topicEntity t)) = edgeKeys g :=
      edgeKeys_addEntity _ _
    have h1ids : nodeIds (addEntity g (topicEntity t)) = nodeIds g :=
      nodeIds_congr h1n
    have hf : (topicRelation c t).fromEntity ∈
        nodeIds (addEntity g (topicEntity t)) := by
      show chunkEntityId c ∈ nodeIds (addEntity g (topicEntity t))
      rw [h1ids]
      exact hch
    have htt : (topicRelation c t).toEntity ∈
        nodeIds (addEntity g (topicEntity t)) := by
      show topicId t ∈ nodeIds (addEntity g (topicEntity t))
      rw [h1ids]
      exact mem_nodeIds_of_key (hn t (List.mem_cons_self _ _))
    have hkey : ((topicRelation c t).fromEntity, (topicRelation c t).toEntity,
        pyUpper (topicRelation c t).type) ∈
        edgeKeys (addEntity g (topicEntity t)) := by
      rw [topicRelation_type_upper, h1e]
      exact he t (List.mem_cons_self _ _)
    have h2e : edgeKeys (addRelation (addEntity g (topicEntity t))
        (topicRelation c t)) = edgeKeys (addEntity g (topicEntity t)) :=
      edgeKeys_addRelation_of_mem _ _ hf htt hkey
    have h2n : nodeKeys (addRelation (addEntity g (topicEntity t))
        (topicRelation c t)) = nodeKeys (addEntity g (topicEntity t)) :=
      nodeKeys_addRelation _ _
    have h2ids : nodeIds (addRelation (addEntity g (topicEntity t))
        (topicRelation c t)) = nodeIds (addEntity g (topicEntity t)) :=
      nodeIds_addRelation _ _
    obtain ⟨ha, hb⟩ := ih
      (addRelation (addEntity g (topicEntity t)) (topicRelation c t))
      (by rw [h2ids, h1ids]; exact hch)
      (fun t2 ht2 => by
        rw [h2n, h1n]
        exact hn t2 (List.mem_cons_of_mem t ht2))
      (fun t2 ht2 => by
        rw [h2e, h1e]
        exact he t2 (List.mem_cons_of_mem t ht2))
    rw [ha, hb, h2n, h2e, h1n, h1e]
    exact ⟨rfl, rfl⟩

theorem applyChunk_adds (g : GraphState) (c : Chunk) :
    (∀ k ∈ chunkNodeKeys c, k ∈ nodeKeys (applyChunk g c)) ∧
    (∀ k ∈ chunkEdgeKeys c, k ∈ edgeKeys (applyChunk g c)) := by
  unfold applyChunk
  have hdoc1 : ("Document", "doc_" ++ c.documentId) ∈
      nodeKeys (addEntity g (docEntity c)) :=
    mem_nodeKeys_addEntity_self g (docEntity c)
  have hdoc2 : ("Document", "doc_" ++ c.documentId) ∈
      nodeKeys (addEntity (addEntity g (docEntity c)) (chunkEntity c)) :=
    mem_nodeKeys_addEntity_mono _ _ hdoc1
  have hchunk2 : ("DocumentChunk", chunkEntityId c) ∈
      nodeKeys (addEntity (addEntity g (docEntity c)) (chunkEntity c)) :=
    mem_nodeKeys_addEntity_self _ (chunkEntity c)
  have hdoc3 : ("Document", "doc_" ++ c.documentId) ∈
      nodeKeys (addRelation (addEntity (addEntity g (docEntity c))
        (chunkEntity c)) (docChunkRelation c)) := by
    rw [nodeKeys_addRelation]
    exact hdoc2
  have hchunk3 : ("DocumentChunk", chunkEntityId c) ∈
      nodeKeys (addRelation (addEntity (addEntity g (docEntity c))
        (chunkEntity c)) (docChunkRelation c)) := by
    rw [nodeKeys_addRelation]
    exact hchunk2
  have hfid : "doc_" ++ c.documentId ∈
      nodeIds (addEntity (addEntity g (docEntity c)) (chunkEntity c)) :=
    mem_nodeIds_of_key hdoc2
  have htid : chunkEntityId c ∈
      nodeIds (addEntity (addEntity g (docEntity c)) (chunkEntity c)) :=
    mem_nodeIds_of_key hchunk2
  have hedge3 : ("doc_" ++ c.documentId, chunkEntityId c, "CONTAINS_CHUNK") ∈
      edgeKeys (addRelation (addEntity (addEntity g (docEntity c))
        (chunkEntity c)) (docChunkRelation c)) := by
    have hself := mem_edgeKeys_addRelation_self _ (docChunkRelation c) hfid htid
    rw [docChunkRelation_type_upper] at hself
    exact hself
  have hch3ids : chunkEntityId c ∈
      nodeIds (addRelation (addEntity (addEntity g (docEntity c))
        (chunkEntity c)) (docChunkRelation c)) := by
    rw [nodeIds_addRelation]
    exact htid
  have htopics := applyTopics_adds c (detectTopics c) _ hch3ids
  constructor
  · intro k hk
    rcases List.mem_cons.mp hk with rfl | hk
    · exact nodeKeys_applyTopics_mono _ _ _ _ hdoc3
    · rcases List.mem_cons.mp hk with rfl | hk
      · exact nodeKeys_applyTopics_mono _ _ _ _ hchunk3
      · obtain ⟨t, ht, rfl⟩ := List.mem_map.mp hk
        exact (htopics t ht).1
  · intro k hk
    rcases List.mem_cons.mp hk with rfl | hk
    · exact edgeKeys_applyTopics_mono _ _ _ _ hedge3
    · obtain ⟨t, ht, rfl⟩ := List.mem_map.mp hk
      exact (htopics t ht).2

theorem applyChunk_preserved (g : GraphState) (c : Chunk)
    (hn : ∀ k ∈ chunkNodeKeys c, k ∈ nodeKeys g)
    (he : ∀ k ∈ chunkEdgeKeys c, k ∈ edgeKeys g) :
    nodeKeys (applyChunk g c) = nodeKeys g ∧
      edgeKeys (applyChunk g c) = edgeKeys g := by
  unfold applyChunk
  have hdoc : ("Document", "doc_" ++ c.documentId) ∈ nodeKeys g :=
    hn _ (List.mem_cons_self _ _)
  have hchk : ("DocumentChunk", chunkEntityId c) ∈ nodeKeys g :=
    hn _ (List.mem_cons_of_mem _ (List.mem_cons_self _ _))
  have hedge : ("doc_" ++ c.documentId, chunkEntityId c, "CONTAINS_CHUNK") ∈
      edgeKeys g :=
    he _ (List.mem_cons_self _ _)
  have h1n : nodeKeys (addEntity g (docEntity c)) = nodeKeys g :=
    nodeKeys_addEntity_of_mem _ _ hdoc
  have h1e : edgeKeys (addEntity g (docEntity c)) = edgeKeys g :=
    edgeKeys_addEntity _ _
  have h2n : nodeKeys (addEntity (addEntity g (docEntity c)) (chunkEntity c)) =
      nodeKeys (addEntity g (docEntity c)) :=
    nodeKeys_addEntity_of_mem _ _ (by rw [h1n]; exact hchk)
  have h2e : edgeKeys (addEntity (addEntity g (docEntity c)) (chunkEntity c)) =
      edgeKeys (addEntity g (docEntity c)) :=
    edgeKeys_addEntity _ _
  have h2ids : nodeIds (addEntity (addEntity g (docEntity c)) (chunkEntity c)) =
      nodeIds g :=
    nodeIds_congr (h2n.trans h1n)
  have hf : (docChunkRelation c).fromEntity ∈
      nodeIds (addEntity (addEntity g (docEntity c)) (chunkEntity c)) := by
    show "doc_" ++ c.documentId ∈ _
    rw [h2ids]
    exact mem_nodeIds_of_key hdoc
  have htt : (docChunkRelation c).toEntity ∈
      nodeIds (addEntity (addEntity g (docEntity c)) (chunkEntity c)) := by
    show chunkEntityId c ∈ _
    rw [h2ids]
    exact mem_nodeIds_of_key hchk
  have hkey : ((docChunkRelation c).fromEntity, (docChunkRelation c).toEntity,
      pyUpper (docChunkRelation c).type) ∈
      edgeKeys (addEntity (addEntity g (docEntity c)) (chunkEntity c)) := by
    rw [docChunkRelation_type_upper, h2e, h1e]
    exact hedge
  have h3n : nodeKeys (addRelation (addEntity (addEntity g (docEntity c))
      (chunkEntity c)) (docChunkRelation c)) =
      nodeKeys (addEntity (addEntity g (docEntity c)) (chunkEntity c)) :=
    nodeKeys_addRelation _ _
  have h3e : edgeKeys (addRelation (addEntity (addEntity g (docEntity c))
      (chunkEntity c)) (docChunkRelation c)) =
      edgeKeys (addEntity (addEntity g (docEntity c)) (chunkEntity c)) :=
    edgeKeys_addRelation_of_mem _ _ hf htt hkey
  have h3ids : nodeIds (addRelation (addEntity (addEntity g (docEntity c))
      (chunkEntity c)) (docChunkRelation c)) = nodeIds g := by
    rw [nodeIds_addRelation, h2ids]
  obtain ⟨ha, hb⟩ := applyTopics_preserved c (detectTopics c)
    (addRelation (addEntity (addEntity g (docEntity c)) (chunkEntity c))
      (docChunkRelation c))
    (by rw [h3ids]; exact mem_nodeIds_of_key hchk)
    (fun t ht => by
      rw [h3n, h2n, h1n]
      exact hn _ (List.mem_cons_of_mem _ (List.mem_cons_of_mem _
        (List.mem_map_of_mem _ ht))))
    (fun t ht => by
      rw [h3e, h2e, h1e]
      exact he _ (List.mem_cons_of_mem _ (List.mem_map_of_mem _ ht)))
  rw [ha, hb, h3n, h3e, h2n, h2e, h1n, h1e]
  exact ⟨rfl, rfl⟩

theorem nodeKeys_applyChunk_mono (g : GraphState) (c : Chunk)
    {k : String × String} (h : k ∈ nodeKeys g) :
    k ∈ nodeKeys (applyChunk g c) := by
  unfold applyChunk
  apply nodeKeys_applyTopics_mono
  rw [nodeKeys_addRelation]
  exact mem_nodeKeys_addEntity_mono _ _ (mem_nodeKeys_addEntity_mono _ _ h)

theorem edgeKeys_applyChunk_mono (g : GraphState) (c : Chunk)
    {k : String × String × String} (h : k ∈ edgeKeys g) :
    k ∈ edgeKeys (applyChunk g c) := by
  unfold applyChunk
  apply edgeKeys_applyTopics_mono
  apply mem_edgeKeys_addRelation_mono
  rw [edgeKeys_addEntity, edgeKeys_addEntity]
  exact h

theorem applyChunks_mono (chunks : List Chunk) :
    ∀ g : GraphState,
      (∀ k ∈ nodeKeys g, k ∈ nodeKeys (applyChunks chunks g)) ∧
      (∀ k ∈ edgeKeys g, k ∈ edgeKeys (applyChunks chunks g)) := by
  induction chunks with
  | nil => intro g; exact ⟨fun k h => h, fun k h => h⟩
  | cons c cs ih =>
    intro g
    exact ⟨fun k h => (ih (applyChunk g c)).1 k (nodeKeys_applyChunk_mono g c h),
      fun k h => (ih (applyChunk g c)).2 k (edgeKeys_applyChunk_mono g c h)⟩

theorem applyChunks_adds (chunks : List Chunk) :
    ∀ g : GraphState, ∀ c ∈ chunks,
      (∀ k ∈ chunkNodeKeys c, k ∈ nodeKeys (applyChunks chunks g)) ∧
      (∀ k ∈ chunkEdgeKeys c, k ∈ edgeKeys (applyChunks chunks g)) := by
  induction chunks with
  | nil => intro g c hc; cases hc
  | cons c2 cs ih =>
    intro g c hc
    rcases List.mem_cons.mp hc with rfl | hc2
    · exact ⟨fun k hk => (applyChunks_mono cs (applyChunk g c)).1 k
          ((applyChunk_adds g c).1 k hk),
        fun k hk => (applyChunks_mono cs (applyChunk g c)).2 k
          ((applyChunk_adds g c).2 k hk)⟩
    · exact ih (applyChunk g c2) c hc2

theorem applyChunks_preserved (chunks : List Chunk) :
    ∀ g : GraphState,
      (∀ c ∈ chunks,
        (∀ k ∈ chunkNodeKeys c, k ∈ nodeKeys g) ∧
        (∀ k ∈ chunkEdgeKeys c, k ∈ edgeKeys g)) →
      nodeKeys (applyChunks chunks g) = nodeKeys g ∧
        edgeKeys (applyChunks chunks g) = edgeKeys g := by
  induction chunks with
  | nil => intro g _; exact ⟨rfl, rfl⟩
  | cons c cs ih =>
    intro g h
    have hc := h c (List.mem_cons_self _ _)
    have h1 := applyChunk_preserved g c hc.1 hc.2
    have hrec := ih (applyChunk g c) (fun c2 hc2 => by
      obtain ⟨ha, hb⟩ := h c2 (List.mem_cons_of_mem c hc2)
      exact ⟨fun k hk => by rw [h1.1]; exact ha k hk,
        fun k hk => by rw [h1.2]; exact hb k hk⟩)
    exact ⟨hrec.1.trans h1.1, hrec.2.trans h1.2⟩

theorem nodes_length_eq (g : GraphState) :
    g.nodes.length = (nodeKeys g).length := by
  simp [nodeKeys]

theorem edges_length_eq (g : GraphState) :
    g.edges.length = (edgeKeys g).length := by
  simp [edgeKeys]

/-- C5 (amended): under a healthy store, a second `build_graph_from_chunks` run
over the same chunk list leaves the node and edge counts of the graph unchanged
(merge-by-id is idempotent), and the returned `entities_added` counter equals
2 per chunk plus one per chunk-topic match (the document entity is counted once
per chunk, even though merged), with `relations_added` analogous. -/
theorem claim5_idempotent_merge_amended (g0 : GraphState) (chunks : List Chunk) :
    ((buildGraphFromChunks healthyOracle
        (buildGraphFromChunks healthyOracle g0 chunks).2 chunks).2.nodes.length =
      (buildGraphFromChunks healthyOracle g0 chunks).2.nodes.length) ∧
    ((buildGraphFromChunks healthyOracle
        (buildGraphFromChunks healthyOracle g0 chunks).2 chunks).2.edges.length =
      (buildGraphFromChunks healthyOracle g0 chunks).2.edges.length) ∧
    ((buildGraphFromChunks healthyOracle g0 chunks).1.graphEntities =
      (chunks.map (fun c => 2 + (detectTopics c).length)).sum) ∧
    ((buildGraphFromChunks healthyOracle g0 chunks).1.graphRelations =
      (chunks.map (fun c => 1 + (detectTopics c).length)).sum) := by
  simp only [buildGraph_healthy]
  have hpres := applyChunks_preserved chunks (applyChunks chunks g0)
    (applyChunks_adds chunks g0)
  refine ⟨?_, ?_, rfl, rfl⟩
  · rw [nodes_length_eq, nodes_length_eq, hpres.1]
  · rw [edges_length_eq, edges_length_eq, hpres.2]

/-- C5 (refutation of the stated accounting): on a fresh graph, one document
with 2 chunks whose contents both match one topic keyword creates 4 distinct
nodes (1 document, 2 chunks, 1 merged topic) — the count the claim asserts —
but the returned `entities_added` is 6, because the document entity is counted
once per chunk and the merged topic entity once per match. -/
theorem claim5_entities_added_counterexample :
    (buildGraphFromChunks healthyOracle emptyGraph
        [chunkA, chunkB]).1.graphEntities = 6 ∧
    (buildGraphFromChunks healthyOracle emptyGraph
        [chunkA, chunkB]).2.nodes.length = 4 ∧
    (6 : Nat) ≠ 4 := by
  refine ⟨by decide, by decide, by decide⟩

end RAGCore
